import Mathlib

/-!
Verification of the Study Session Planner session store (`src/model.py`).

The store keeps a process-wide list `session_list : List StudySession` and
mirrors it in a CSV file `sessions.csv`.  Python's `csv` module is a
bijective codec between a record (a list of field strings) and its encoded
line, so the backing file is modelled at the record level as
`Option (List Row)` (`none` = the file does not exist, `some rows` = the
decoded sequence of complete records).  The byte-level encoding used by
`csv.DictWriter` (QUOTE_MINIMAL, `\r\n` terminator) is made explicit as
`encodeRow`/`encodeFile` so that byte-exact statements (header line,
byte-for-byte no-ops) can be expressed.

`int(...)` applied to the stored duration string is modelled by `pyInt`
(optional surrounding whitespace drawn from CPython's full
`Py_UNICODE_ISSPACE` set, one optional ASCII sign, and Unicode decimal
digits with single underscores allowed between digits, exactly CPython's
decimal-to-ASCII transform followed by its ASCII parser), and `str`
applied to an `int` by `pyStrInt` (decimal, `-` sign for negatives).

`csv.DictReader` keys each data row by the file's first record; a missing
value (a data row shorter than the header) becomes Python `None`.  In that
case `int(None)` raises, and the model reports `PyErr.NoneField`; the three
raw-string fields would be stored as `None` by Python, a case no store
written file and no claim exercises (every record written by the store has
exactly four fields).  A failed load leaves the Python list holding the
prefix parsed so far; only successful operations are modelled as producing
states, matching the spec's "after any successful Store operation".
-/

/-- One study session: `StudySession.__init__` in `src/model.py` stores the
four attributes unchanged. -/
structure StudySession where
  subject : String
  date : String
  duration : Int
  notes : String
deriving Repr, DecidableEq

/-- One record of the backing file, as the list of its decoded fields. -/
abbrev Row := List String

/-- The store state: the in-memory `session_list` together with the backing
file (`none` when `sessions.csv` does not exist). -/
structure StoreState where
  session_list : List StudySession
  file : Option (List Row)
deriving Repr, DecidableEq

/-- The state at a fresh process start with no backing file. -/
def initState : StoreState := { session_list := [], file := none }

/-! ## Python `int()` on strings, and `str()` on ints

CPython parses `int(s)` by first mapping every Unicode decimal digit
(category Nd) to its digit value, mapping every `Py_UNICODE_ISSPACE`
character to a space, and rejecting any other non-ASCII character; the
result is then parsed as optional whitespace, an optional single ASCII
sign, and groups of digits separated by single underscores.  The two
tables below reproduce CPython's data: every Nd run is ten consecutive
code points carrying the values 0–9, listed here by its first code point
(Unicode 15.0, so including every digit range any CPython through 3.12
accepts), and the whitespace set is the fixed `Py_UNICODE_ISSPACE` list. -/

/-- First code point of every run of ten consecutive Unicode decimal
digits (category Nd), Unicode 15.0. -/
def pyDecimalStarts : List Nat :=
  [0x30, 0x660, 0x6F0, 0x7C0, 0x966, 0x9E6, 0xA66, 0xAE6, 0xB66, 0xBE6,
   0xC66, 0xCE6, 0xD66, 0xDE6, 0xE50, 0xED0, 0xF20, 0x1040, 0x1090, 0x17E0,
   0x1810, 0x1946, 0x19D0, 0x1A80, 0x1A90, 0x1B50, 0x1BB0, 0x1C40, 0x1C50,
   0xA620, 0xA8D0, 0xA900, 0xA9D0, 0xA9F0, 0xAA50, 0xABF0, 0xFF10,
   0x104A0, 0x10D30, 0x11066, 0x110F0, 0x11136, 0x111D0, 0x112F0, 0x11450,
   0x114D0, 0x11650, 0x116C0, 0x11730, 0x118E0, 0x11950, 0x11C50, 0x11D50,
   0x11DA0, 0x11F50, 0x16A60, 0x16AC0, 0x16B50, 0x1D7CE, 0x1D7D8, 0x1D7E2,
   0x1D7EC, 0x1D7F6, 0x1E140, 0x1E2F0, 0x1E4F0, 0x1E950, 0x1FBF0]

/-- The digit value of code point `n`, when `n` is a Unicode decimal
digit (CPython's decimal transform). -/
def pyDecimalValN (n : Nat) : Option Nat :=
  (pyDecimalStarts.find? (fun s => decide (s ≤ n) && decide (n < s + 10))).map
    (fun s => n - s)

/-- The digit value of a character, when it is a Unicode decimal digit. -/
def pyDecimalVal (c : Char) : Option Nat := pyDecimalValN c.toNat

/-- The code points `int()` strips around a literal: CPython's transform
passes ASCII through unchanged — so of the ASCII range only the C parser's
`\t`, `\n`, `\v`, `\f`, `\r` and space count — and maps every non-ASCII
`Py_UNICODE_ISSPACE` character to a space, which the parser then strips. -/
def pySpaceCodes : List Nat :=
  [0x09, 0x0A, 0x0B, 0x0C, 0x0D, 0x20,
   0x85, 0xA0, 0x1680, 0x2000, 0x2001, 0x2002, 0x2003, 0x2004, 0x2005,
   0x2006, 0x2007, 0x2008, 0x2009, 0x200A, 0x2028, 0x2029, 0x202F, 0x205F,
   0x3000]

/-- Whether `int()` treats the character as whitespace. -/
def isPySpace (c : Char) : Bool := pySpaceCodes.contains c.toNat

/-- Digit-with-underscores body of a Python integer literal:
`digit+ ( UNDERSCORE digit+ )*`, digits being Unicode decimal digits;
returns the digit characters with underscores removed. -/
def undBody : List Char → Option (List Char)
  | [] => none
  | [c] => if (pyDecimalVal c).isSome then some [c] else none
  | c :: d :: rest =>
    if (pyDecimalVal c).isSome then
      if d = '_' then (undBody rest).map (fun ds => c :: ds)
      else (undBody (d :: rest)).map (fun ds => c :: ds)
    else none

/-- Value of a big-endian list of decimal digit characters. -/
def digitsVal (ds : List Char) : Nat :=
  ds.foldl (fun a c => 10 * a + (pyDecimalVal c).getD 0) 0

/-- Python `int(s)` for a string `s` in base 10: strip surrounding
whitespace, optional single sign, then a digit/underscore body.  `none`
models the `ValueError` raised on an invalid literal. -/
def pyIntBody : List Char → Option Int
  | [] => none
  | c :: rest =>
    if c = '+' then (undBody rest).map (fun ds => (digitsVal ds : Int))
    else if c = '-' then (undBody rest).map (fun ds => -(digitsVal ds : Int))
    else (undBody (c :: rest)).map (fun ds => (digitsVal ds : Int))

def pyInt (s : String) : Option Int :=
  pyIntBody ((s.data.dropWhile isPySpace).reverse.dropWhile isPySpace).reverse

/-- Little-endian decimal digits of `n`, computed with explicit fuel so
that the definition reduces inside the kernel; any `fuel ≥ n` suffices. -/
def digitsFuel : Nat → Nat → List Nat
  | 0, _ => []
  | fuel + 1, n => if n = 0 then [] else n % 10 :: digitsFuel fuel (n / 10)

/-- Little-endian decimal digits of `n` (`[]` for `0`). -/
def natDigits (n : Nat) : List Nat := digitsFuel n n

/-- Decimal digit characters of `n`, most significant first. -/
def natDigitChars (n : Nat) : List Char :=
  (natDigits n).reverse.map (fun d => Char.ofNat (48 + d))

/-- Python `str(n)` for a non-negative integer. -/
def pyStrNat (n : Nat) : String :=
  if n = 0 then "0" else ⟨natDigitChars n⟩

/-- Python `str(i)` for an `int`, as written by `csv.DictWriter` for the
`Duration` field. -/
def pyStrInt (i : Int) : String :=
  if i < 0 then "-" ++ pyStrNat i.natAbs else pyStrNat i.natAbs

/-! ## The byte-level CSV encoding of `csv.DictWriter`
(QUOTE_MINIMAL, delimiter `,`, quote char `"`, line terminator `\r\n`). -/

/-- A field is quoted iff it contains the delimiter, the quote character,
or a character of the line terminator. -/
def needsQuote (c : Char) : Bool :=
  c == ',' || c == '"' || c == '\r' || c == '\n'

/-- Double every quote character, as the CSV writer does inside a quoted
field. -/
def escapeQuotes : List Char → List Char
  | [] => []
  | c :: cs => if c = '"' then '"' :: '"' :: escapeQuotes cs else c :: escapeQuotes cs

/-- Encoding of one field under QUOTE_MINIMAL. -/
def encodeField (f : String) : String :=
  if f.data.any needsQuote then ⟨'"' :: (escapeQuotes f.data ++ ['"'])⟩ else f

/-- Encoding of one record: fields joined by `,`, terminated by `\r\n`. -/
def encodeRow (r : Row) : String :=
  String.intercalate "," (r.map encodeField) ++ "\r\n"

/-- The bytes of the whole backing file for a given record sequence. -/
def encodeFile (rows : List Row) : String :=
  String.join (rows.map encodeRow)

/-! ## The store operations of `src/model.py` -/

/-- The header record written by `writer.writeheader()`:
`fieldnames=["Subject", "Date", "Duration", "Notes"]`. -/
def headerRow : Row := ["Subject", "Date", "Duration", "Notes"]

/-- The record `writer.writerow({...})` writes for a session: the four
fields in column order, the integer duration stringified by `str`. -/
def sessionRow (s : StudySession) : Row :=
  [s.subject, s.date, pyStrInt s.duration, s.notes]

/-- Model of `_append_to_csv`: if the file does not exist it is created and the
header record written first; the session's record is then appended.  The
existence check is `os.path.exists` alone, never the content. -/
def appendToCsv (file : Option (List Row)) (s : StudySession) : List Row :=
  match file with
  | none => [headerRow, sessionRow s]
  | some rows => rows ++ [sessionRow s]

/-- Model of `save_session`: append to the in-memory list, then `_append_to_csv`. -/
def save_session (st : StoreState) (s : StudySession) : StoreState :=
  { session_list := st.session_list ++ [s],
    file := some (appendToCsv st.file s) }

/-- Model of `_write_all_to_csv`: truncate, write the header, write every record. -/
def writeAllToCsv (l : List StudySession) : List Row :=
  headerRow :: l.map sessionRow

/-- Model of `update_session`: when `0 <= index < len(session_list)`, replace the
element at `index` and rewrite the whole file; otherwise do nothing. -/
def update_session (st : StoreState) (index : Int) (s : StudySession) : StoreState :=
  if 0 ≤ index ∧ index < (st.session_list.length : Int) then
    let l := st.session_list.set index.toNat s
    { session_list := l, file := some (writeAllToCsv l) }
  else st

/-- Model of `filter_sessions_by_date`: the list comprehension
`[s for s in session_list if s.date == date_str]`; reads the state, never
writes it. -/
def filter_sessions_by_date (st : StoreState) (date_str : String) : List StudySession :=
  st.session_list.filter (fun s => s.date == date_str)

/-- Errors a Python load can raise: `ParseError` is the `ValueError` from
`int()` on a malformed duration; `KeyError` a header lacking a looked-up
field name; `NoneField` the `restval=None` case described in the module
comment. -/
inductive PyErr where
  | ParseError
  | KeyError
  | NoneField
deriving Repr, DecidableEq

/-- Model of `row[name]` on a `csv.DictReader` row: the value at the position of
`name` in the file's header record. -/
def dictGet (header row : Row) (name : String) : Except PyErr String :=
  match header.findIdx? (fun f => f == name) with
  | none => Except.error PyErr.KeyError
  | some i =>
    match row.get? i with
    | some v => Except.ok v
    | none => Except.error PyErr.NoneField

/-- One loop body of `load_sessions`: `StudySession(row["Subject"],
row["Date"], int(row["Duration"]), row["Notes"])`, arguments evaluated left
to right. -/
def parseRow (header row : Row) : Except PyErr StudySession := do
  let subject ← dictGet header row "Subject"
  let date ← dictGet header row "Date"
  let durStr ← dictGet header row "Duration"
  let dur ← match pyInt durStr with
    | some n => Except.ok n
    | none => Except.error PyErr.ParseError
  let notes ← dictGet header row "Notes"
  Except.ok { subject := subject, date := date, duration := dur, notes := notes }

/-- The `for row in reader` loop over the data records; `csv.DictReader`
skips records decoded from blank lines. -/
def loadRows (header : Row) : List Row → Except PyErr (List StudySession)
  | [] => Except.ok []
  | r :: rs =>
    if r.isEmpty then loadRows header rs
    else do
      let s ← parseRow header r
      let l ← loadRows header rs
      Except.ok (s :: l)

/-- Model of `load_sessions` on the file content alone: a missing file and an empty
file both yield no sessions; otherwise the first record is the
`DictReader` header and the rest are parsed in order. -/
def load_file : Option (List Row) → Except PyErr (List StudySession)
  | none => Except.ok []
  | some [] => Except.ok []
  | some (header :: rows) => loadRows header rows

/-- Model of `load_sessions` as a state transition: clear the list and repopulate it
from the file; the file itself is not touched.  The returned list is the
new `session_list` (Python returns the very same object). -/
def load_state (st : StoreState) : Except PyErr StoreState :=
  match load_file st.file with
  | Except.ok l => Except.ok { session_list := l, file := st.file }
  | Except.error e => Except.error e

/-- Iterated `save_session` over a list, first element appended first. -/
def appendAll (st : StoreState) (l : List StudySession) : StoreState :=
  l.foldl save_session st

/-- States the store can be in: the fresh-process start, followed by any
sequence of successful operations (`filter_sessions_by_date` does not
change the state). -/
inductive Reachable : StoreState → Prop where
  | init : Reachable initState
  | save : ∀ {st : StoreState} (s : StudySession),
      Reachable st → Reachable (save_session st s)
  | update : ∀ {st : StoreState} (i : Int) (s : StudySession),
      Reachable st → Reachable (update_session st i s)
  | load : ∀ {st st' : StoreState},
      Reachable st → load_state st = Except.ok st' → Reachable st'

/-- The first session of the spec's concrete scenario (§8). -/
def exA : StudySession := { subject := "Math", date := "2024-01-10", duration := 30, notes := "" }

/-- The second session of the spec's concrete scenario (§8). -/
def exB : StudySession :=
  { subject := "Art", date := "2024-01-10", duration := 45, notes := "sketch" }

/-- The replacement session of the spec's concrete scenario (§8). -/
def exC : StudySession :=
  { subject := "Math", date := "2024-01-11", duration := 60, notes := "revised" }

/-- The state after appending `exA` then `exB` from a fresh start. -/
def exState : StoreState := save_session (save_session initState exA) exB

/-! ## Round-trip of `str` and `int()` on durations -/

theorem digitsFuel_eq (fuel : Nat) : ∀ n : Nat, n ≤ fuel → digitsFuel fuel n = Nat.digits 10 n := by
  induction fuel with
  | zero =>
    intro n hn
    interval_cases n
    simp [digitsFuel]
  | succ fuel ih =>
    intro n hn
    by_cases h0 : n = 0
    · simp [digitsFuel, h0]
    · rw [digitsFuel, if_neg h0, Nat.digits_def' (by norm_num) (Nat.pos_of_ne_zero h0),
        ih (n / 10) ?_]
      have := Nat.div_lt_self (Nat.pos_of_ne_zero h0) (by norm_num : 1 < 10)
      omega

theorem natDigits_eq (n : Nat) : natDigits n = Nat.digits 10 n :=
  digitsFuel_eq n n le_rfl

theorem mem_natDigits_lt {n d : Nat} (h : d ∈ natDigits n) : d < 10 := by
  rw [natDigits_eq] at h
  exact Nat.digits_lt_base (by norm_num) h

theorem natDigits_ne_nil {n : Nat} (h : n ≠ 0) : natDigits n ≠ [] := by
  rw [natDigits_eq]
  exact Nat.digits_ne_nil_iff_ne_zero.mpr h

theorem pyDecimalVal_digitChar {d : Nat} (h : d < 10) :
    pyDecimalVal (Char.ofNat (48 + d)) = some d := by
  interval_cases d <;> decide

theorem digitChar_not_pySpace {d : Nat} (h : d < 10) :
    isPySpace (Char.ofNat (48 + d)) = false := by
  interval_cases d <;> decide

theorem decimal_ne_underscore {c : Char} (h : (pyDecimalVal c).isSome = true) : c ≠ '_' := by
  intro h1
  subst h1
  exact absurd h (by decide)

theorem decimal_ne_plus {c : Char} (h : (pyDecimalVal c).isSome = true) : c ≠ '+' := by
  intro h1
  subst h1
  exact absurd h (by decide)

theorem decimal_ne_minus {c : Char} (h : (pyDecimalVal c).isSome = true) : c ≠ '-' := by
  intro h1
  subst h1
  exact absurd h (by decide)

theorem undBody_all_digits :
    ∀ ds : List Char, ds ≠ [] → (∀ c ∈ ds, (pyDecimalVal c).isSome = true) →
      undBody ds = some ds
  | [], h, _ => absurd rfl h
  | [c], _, h2 => by simp [undBody, h2 c (by simp)]
  | c :: d :: rest, _, h2 => by
    have hc : (pyDecimalVal c).isSome = true := h2 c (by simp)
    have hd : (pyDecimalVal d).isSome = true := h2 d (by simp)
    have ih := undBody_all_digits (d :: rest) (by simp)
      (fun x hx => h2 x (List.mem_cons_of_mem c hx))
    simp [undBody, hc, decimal_ne_underscore hd, ih]

theorem digitsVal_digitChars_aux :
    ∀ (L : List Nat) (a : Nat), (∀ d ∈ L, d < 10) →
      (L.map (fun d => Char.ofNat (48 + d))).foldl
          (fun a c => 10 * a + (pyDecimalVal c).getD 0) a =
        L.foldl (fun a d => 10 * a + d) a
  | [], _, _ => rfl
  | d :: L, a, h => by
    have hd : d < 10 := h d (by simp)
    simp only [List.map_cons, List.foldl_cons, pyDecimalVal_digitChar hd, Option.getD_some]
    exact digitsVal_digitChars_aux L (10 * a + d) (fun x hx => h x (List.mem_cons_of_mem d hx))

theorem foldl_reverse_ofDigits :
    ∀ L : List Nat, L.reverse.foldl (fun a d => 10 * a + d) 0 = Nat.ofDigits 10 L
  | [] => rfl
  | d :: L => by
    rw [List.reverse_cons, List.foldl_append, foldl_reverse_ofDigits L, Nat.ofDigits_cons]
    simp only [List.foldl_cons, List.foldl_nil]
    ring

theorem digitsVal_natDigitChars (n : Nat) : digitsVal (natDigitChars n) = n := by
  have hlt : ∀ d ∈ (natDigits n).reverse, d < 10 := by
    intro d hd
    exact mem_natDigits_lt (List.mem_reverse.mp hd)
  rw [natDigitChars, digitsVal, digitsVal_digitChars_aux _ 0 hlt, foldl_reverse_ofDigits,
    natDigits_eq]
  exact_mod_cast Nat.ofDigits_digits 10 n

theorem natDigitChars_decimal (n : Nat) :
    ∀ c ∈ natDigitChars n, (pyDecimalVal c).isSome = true := by
  intro c hc
  rw [natDigitChars] at hc
  obtain ⟨d, hd, rfl⟩ := List.mem_map.mp hc
  rw [pyDecimalVal_digitChar (mem_natDigits_lt (List.mem_reverse.mp hd))]
  rfl

theorem natDigitChars_not_space (n : Nat) :
    ∀ c ∈ natDigitChars n, isPySpace c = false := by
  intro c hc
  rw [natDigitChars] at hc
  obtain ⟨d, hd, rfl⟩ := List.mem_map.mp hc
  exact digitChar_not_pySpace (mem_natDigits_lt (List.mem_reverse.mp hd))

theorem strip_of_no_space (l : List Char) (hne : l ≠ [])
    (hns : ∀ c ∈ l, isPySpace c = false) :
    ((l.dropWhile isPySpace).reverse.dropWhile isPySpace).reverse = l := by
  have hleft : l.dropWhile isPySpace = l := by
    match l, hne with
    | c :: cs, _ =>
      rw [List.dropWhile_cons, if_neg]
      simp [hns c (by simp)]
  rw [hleft]
  match hr : l.reverse, hne with
  | [], _ =>
    exact absurd (List.reverse_eq_nil_iff.mp hr) hne
  | c :: cs, _ =>
    have hc : c ∈ l := by
      rw [← List.mem_reverse, hr]
      simp
    rw [List.dropWhile_cons, if_neg (by simp [hns c hc]), ← hr,
      List.reverse_reverse]

theorem pyStrNat_data {n : Nat} (h : n ≠ 0) : (pyStrNat n).data = natDigitChars n := by
  rw [pyStrNat, if_neg h]

theorem natDigitChars_ne_nil {n : Nat} (h : n ≠ 0) : natDigitChars n ≠ [] := by
  rw [natDigitChars]
  simp [natDigits_ne_nil h]

theorem pyIntBody_digits (l : List Char) (hne : l ≠ [])
    (hdig : ∀ c ∈ l, (pyDecimalVal c).isSome = true) :
    pyIntBody l = some (digitsVal l : Int) := by
  match l, hne with
  | c :: cs, _ =>
    have hc : (pyDecimalVal c).isSome = true := hdig c (by simp)
    rw [pyIntBody, if_neg (decimal_ne_plus hc), if_neg (decimal_ne_minus hc),
      undBody_all_digits (c :: cs) (by simp) hdig]
    rfl

theorem pyInt_pyStrNat (n : Nat) : pyInt (pyStrNat n) = some (n : Int) := by
  by_cases h0 : n = 0
  · subst h0
    decide
  · rw [pyInt, pyStrNat_data h0,
      strip_of_no_space _ (natDigitChars_ne_nil h0) (natDigitChars_not_space n),
      pyIntBody_digits _ (natDigitChars_ne_nil h0) (natDigitChars_decimal n),
      digitsVal_natDigitChars]

theorem pyInt_pyStrInt (i : Int) : pyInt (pyStrInt i) = some i := by
  by_cases hneg : i < 0
  · rw [pyStrInt, if_pos hneg]
    have h0 : i.natAbs ≠ 0 := by omega
    have hne : natDigitChars i.natAbs ≠ [] := by
      rw [natDigitChars]
      simp [natDigits_ne_nil h0]
    have hdata : ("-" ++ pyStrNat i.natAbs).data = '-' :: natDigitChars i.natAbs := by
      rw [String.data_append, pyStrNat_data h0]
      rfl
    rw [pyInt, hdata]
    have hstrip :
        ((('-' :: natDigitChars i.natAbs).dropWhile isPySpace).reverse.dropWhile
            isPySpace).reverse = '-' :: natDigitChars i.natAbs := by
      rw [List.dropWhile_cons, if_neg (by decide)]
      match hr : ('-' :: natDigitChars i.natAbs).reverse with
      | [] => simp at hr
      | c :: cs =>
        have hc : c ∈ '-' :: natDigitChars i.natAbs := by
          rw [← List.mem_reverse, hr]
          simp
        have hcsp : isPySpace c = false := by
          rcases List.mem_cons.mp hc with h | h
          · rw [h]; decide
          · exact natDigitChars_not_space _ c h
        rw [List.dropWhile_cons, if_neg (by simp [hcsp]), ← hr, List.reverse_reverse]
    rw [hstrip, pyIntBody, if_neg (by decide), if_pos rfl,
      undBody_all_digits _ hne (natDigitChars_decimal _)]
    show some (-(digitsVal (natDigitChars i.natAbs) : Int)) = some i
    rw [digitsVal_natDigitChars]
    exact congrArg some (by omega)
  · rw [pyStrInt, if_neg hneg, pyInt_pyStrNat]
    congr 1
    omega

/-! ## Parsing back what the store writes -/

theorem parseRow_sessionRow (s : StudySession) :
    parseRow headerRow (sessionRow s) = Except.ok s := by
  obtain ⟨a, b, n, d⟩ := s
  show (match pyInt (pyStrInt n) with
    | some m => Except.ok (⟨a, b, m, d⟩ : StudySession)
    | none => Except.error PyErr.ParseError) = Except.ok (⟨a, b, n, d⟩ : StudySession)
  rw [pyInt_pyStrInt]

theorem loadRows_map_sessionRow :
    ∀ l : List StudySession, loadRows headerRow (l.map sessionRow) = Except.ok l
  | [] => rfl
  | s :: l => by
    show (parseRow headerRow (sessionRow s)).bind
        (fun s' => (loadRows headerRow (l.map sessionRow)).bind
          (fun l' => Except.ok (s' :: l'))) = Except.ok (s :: l)
    rw [parseRow_sessionRow, loadRows_map_sessionRow l]
    rfl

theorem load_file_writeAll (l : List StudySession) :
    load_file (some (writeAllToCsv l)) = Except.ok l :=
  loadRows_map_sessionRow l

/-! ## The store invariant on reachable states -/

theorem reachable_fileSynced {st : StoreState} (h : Reachable st) :
    (st.file = none ∧ st.session_list = []) ∨ st.file = some (writeAllToCsv st.session_list) := by
  induction h with
  | init => exact Or.inl ⟨rfl, rfl⟩
  | save s hr ih =>
    rcases ih with ⟨hf, hl⟩ | hf
    · right
      simp [save_session, appendToCsv, writeAllToCsv, hf, hl]
    · right
      simp [save_session, appendToCsv, writeAllToCsv, hf, List.map_append]
  | update i s hr ih =>
    rename_i st'
    by_cases hcond : 0 ≤ i ∧ i < (st'.session_list.length : Int)
    · right
      simp [update_session, hcond]
    · rw [update_session, if_neg hcond]
      exact ih
  | load hr hl ih =>
    rcases ih with ⟨hf, hlist⟩ | hf
    · rw [load_state, hf] at hl
      simp only [load_file] at hl
      rw [Except.ok.injEq] at hl
      subst hl
      exact Or.inl ⟨rfl, rfl⟩
    · rw [load_state, hf, load_file_writeAll] at hl
      rw [Except.ok.injEq] at hl
      subst hl
      exact Or.inr rfl

/-! ## Auxiliary facts about iterated appends -/

theorem appendAll_session_list :
    ∀ (l : List StudySession) (st : StoreState),
      (appendAll st l).session_list = st.session_list ++ l
  | [], st => by simp [appendAll]
  | s :: l, st => by
    show (appendAll (save_session st s) l).session_list = st.session_list ++ (s :: l)
    rw [appendAll_session_list l (save_session st s)]
    simp [save_session]

theorem reachable_appendAll :
    ∀ (l : List StudySession) {st : StoreState}, Reachable st → Reachable (appendAll st l)
  | [], _, h => h
  | s :: l, _, h => reachable_appendAll l (Reachable.save s h)

/-! ## Rows of exactly four fields -/

theorem length_four_eq : ∀ r : Row, r.length = 4 → ∃ a b c d, r = [a, b, c, d]
  | [], h => by simp at h
  | [_], h => by simp at h
  | [_, _], h => by simp at h
  | [_, _, _], h => by simp at h
  | [a, b, c, d], _ => ⟨a, b, c, d, rfl⟩
  | _ :: _ :: _ :: _ :: _ :: _, h => by simp at h

theorem parseRow_four (a b c d : String) :
    parseRow headerRow [a, b, c, d] =
      match pyInt c with
      | some m => Except.ok { subject := a, date := b, duration := m, notes := d }
      | none => Except.error PyErr.ParseError := rfl

theorem loadRows_malformed :
    ∀ data : List Row, (∀ r ∈ data, r.length = 4) →
      (∃ r ∈ data, ∃ v, r[2]? = some v ∧ pyInt v = none) →
      loadRows headerRow data = Except.error PyErr.ParseError
  | [], _, hbad => by simp at hbad
  | r :: rs, hlen, hbad => by
    obtain ⟨a, b, c, d, rfl⟩ := length_four_eq r (hlen r (by simp))
    show (parseRow headerRow [a, b, c, d]).bind
        (fun s => (loadRows headerRow rs).bind
          (fun l => Except.ok (s :: l))) = Except.error PyErr.ParseError
    rw [parseRow_four]
    cases hc : pyInt c with
    | none => rfl
    | some m =>
      have hrest : ∃ r ∈ rs, ∃ v, r[2]? = some v ∧ pyInt v = none := by
        rcases hbad with ⟨r, hr, v, hv, hbadv⟩
        rcases List.mem_cons.mp hr with h | h
        · subst h
          simp only [List.getElem?_cons_succ, List.getElem?_cons_zero,
            Option.some.injEq] at hv
          subst hv
          rw [hc] at hbadv
          exact absurd hbadv (by simp)
        · exact ⟨r, h, v, hv, hbadv⟩
      rw [loadRows_malformed rs (fun x hx => hlen x (List.mem_cons_of_mem _ hx)) hrest]
      rfl

/-! ## The claims -/

/-- C1.  Round-trip: starting from no backing file and an empty in-memory
sequence, appending any sequence of sessions in order via `save_session`
and then loading returns exactly those sessions in the same order, all four
fields equal. -/
theorem claim1_roundtrip_append_load (l : List StudySession) :
    load_file (appendAll initState l).file = Except.ok l := by
  have hl : (appendAll initState l).session_list = l := by
    rw [appendAll_session_list]
    rfl
  rcases reachable_fileSynced (reachable_appendAll l Reachable.init) with ⟨hf, hlist⟩ | hf
  · rw [hf, ← hl, hlist]
    rfl
  · rw [hf, load_file_writeAll, hl]

/-- C2.  Store-file synchronisation invariant: after any successful store
operation (i.e. in every reachable state) parsing the backing file's data
records yields exactly the in-memory sequence (a missing file parses as the
empty sequence). -/
theorem claim2_store_file_sync {st : StoreState} (h : Reachable st) :
    load_file st.file = Except.ok st.session_list := by
  rcases reachable_fileSynced h with ⟨hf, hl⟩ | hf
  · rw [hf, hl]
    rfl
  · rw [hf, load_file_writeAll]

theorem claim2_witness :
    load_file exState.file = Except.ok exState.session_list :=
  claim2_store_file_sync (Reachable.save exB (Reachable.save exA Reachable.init))

/-- C3.  Replace no-op on invalid index: for every index outside
`0 ≤ index < length`, `update_session` returns the state unchanged — the
in-memory sequence, the file records, and hence the file bytes are all
untouched (the operation is total, so no error is raised). -/
theorem claim3_replace_noop_invalid (st : StoreState) (i : Int) (s : StudySession)
    (h : i < 0 ∨ (st.session_list.length : Int) ≤ i) :
    update_session st i s = st ∧
      (update_session st i s).file.map encodeFile = st.file.map encodeFile := by
  have hcond : ¬(0 ≤ i ∧ i < (st.session_list.length : Int)) := by omega
  rw [update_session, if_neg hcond]
  exact ⟨rfl, rfl⟩

theorem claim3_witness :
    (update_session exState (-1) exC = exState ∧
      (update_session exState (-1) exC).file.map encodeFile = exState.file.map encodeFile) ∧
    (update_session exState 2 exC = exState ∧
      (update_session exState 2 exC).file.map encodeFile = exState.file.map encodeFile) :=
  ⟨claim3_replace_noop_invalid exState (-1) exC (by decide),
   claim3_replace_noop_invalid exState 2 exC (by decide)⟩

/-- C4.  Replace preserves length and frames other elements: for a valid
index, `update_session` puts the new session at that position, keeps the
length, and leaves every other position unchanged. -/
theorem claim4_replace_frame (st : StoreState) (i : Int) (s : StudySession)
    (h0 : 0 ≤ i) (h1 : i < (st.session_list.length : Int)) :
    (update_session st i s).session_list.length = st.session_list.length ∧
    (update_session st i s).session_list[i.toNat]? = some s ∧
    ∀ j : Nat, j ≠ i.toNat →
      (update_session st i s).session_list[j]? = st.session_list[j]? := by
  have hi : i.toNat < st.session_list.length := by omega
  rw [update_session, if_pos ⟨h0, h1⟩]
  exact ⟨List.length_set .., List.getElem?_set_self hi,
    fun j hj => List.getElem?_set_ne (fun heq => hj heq.symm)⟩

theorem claim4_witness :
    (update_session exState 0 exC).session_list.length = exState.session_list.length ∧
    (update_session exState 0 exC).session_list[(0 : Int).toNat]? = some exC :=
  ⟨(claim4_replace_frame exState 0 exC (by decide) (by decide)).1,
   (claim4_replace_frame exState 0 exC (by decide) (by decide)).2.1⟩

/-- C5.  Append-only growth: after `save_session` the in-memory sequence is
one longer, ends with the appended session, and all previously present
elements are unchanged in place. -/
theorem claim5_append_growth (st : StoreState) (s : StudySession) :
    (save_session st s).session_list.length = st.session_list.length + 1 ∧
    (save_session st s).session_list.getLast? = some s ∧
    ∀ j : Nat, j < st.session_list.length →
      (save_session st s).session_list[j]? = st.session_list[j]? := by
  refine ⟨?_, List.getLast?_concat _, fun j hj => List.getElem?_append_left hj⟩
  simp [save_session]

theorem claim5_witness :
    (save_session exState exC).session_list.length = exState.session_list.length + 1 :=
  (claim5_append_growth exState exC).1

/-- C6.  Filter correctness: `filter_sessions_by_date` returns exactly the
subsequence of the in-memory sequence whose date equals the argument
(string equality), in order: it is a sublist, every element of it matches,
any matching sublist embeds into it, and it is empty when nothing matches.
In the model it is a pure function of the state, so the state is
unchanged. -/
theorem claim6_filter_correct (st : StoreState) (d : String) :
    (filter_sessions_by_date st d).Sublist st.session_list ∧
    (∀ s ∈ filter_sessions_by_date st d, s.date = d) ∧
    (∀ m : List StudySession, m.Sublist st.session_list → (∀ s ∈ m, s.date = d) →
      m.Sublist (filter_sessions_by_date st d)) ∧
    ((∀ s ∈ st.session_list, s.date ≠ d) → filter_sessions_by_date st d = []) := by
  refine ⟨List.filter_sublist _, ?_, ?_, ?_⟩
  · intro s hs
    exact eq_of_beq (List.mem_filter.mp hs).2
  · intro m hsub hall
    have h1 : m.filter (fun s => s.date == d) = m :=
      List.filter_eq_self.mpr (fun a ha => by simp [hall a ha])
    show m.Sublist (st.session_list.filter (fun s => s.date == d))
    rw [← h1]
    exact hsub.filter _
  · intro hnone
    refine List.filter_eq_nil_iff.mpr ?_
    intro a ha
    simp [hnone a ha]

theorem claim6_witness :
    (filter_sessions_by_date exState "2024-01-10").Sublist exState.session_list :=
  (claim6_filter_correct exState "2024-01-10").1

/-- C7.  Missing file is not an error: loading with no backing file
succeeds and both the returned sequence and the resulting in-memory
sequence are empty, whatever was in memory before. -/
theorem claim7_load_missing_file (l : List StudySession) :
    load_state { session_list := l, file := none } =
      Except.ok { session_list := [], file := none } := rfl

/-- C8.  Malformed duration fails load: if the backing file exists, its
records have the four standard fields, and some record's duration field is
not a valid integer literal, then loading fails with `ParseError`; no row
is skipped and nothing is recovered. -/
theorem claim8_malformed_duration (data : List Row)
    (hlen : ∀ r ∈ data, r.length = 4)
    (hbad : ∃ r ∈ data, ∃ v, r[2]? = some v ∧ pyInt v = none) :
    load_file (some (headerRow :: data)) = Except.error PyErr.ParseError :=
  loadRows_malformed data hlen hbad

theorem claim8_witness :
    load_file (some (headerRow :: [["Math", "2024-01-10", "3x", ""]])) =
      Except.error PyErr.ParseError :=
  claim8_malformed_duration [["Math", "2024-01-10", "3x", ""]]
    (by decide)
    ⟨["Math", "2024-01-10", "3x", ""], by decide, "3x", by decide, by decide⟩

/-- C9.  Backing-file format: the header record encodes to exactly the
bytes `Subject,Date,Duration,Notes\r\n`; each data record holds subject,
date, duration as a decimal integer string, and notes in that column
order; appending with no backing file present writes the header record
before the first data record; and in every reachable state the file, when
present, starts with the header record. -/
theorem claim9_backing_file_format :
    encodeRow headerRow = "Subject,Date,Duration,Notes" ++ "\x0d\n" ∧
    (∀ s : StudySession, sessionRow s = [s.subject, s.date, pyStrInt s.duration, s.notes]) ∧
    (∀ (l : List StudySession) (s : StudySession),
      (save_session { session_list := l, file := none } s).file =
        some [headerRow, sessionRow s]) ∧
    (∀ st : StoreState, Reachable st → ∀ rows : List Row,
      st.file = some rows → rows.head? = some headerRow) := by
  refine ⟨by decide, fun _ => rfl, fun _ _ => rfl, ?_⟩
  intro st h rows hf
  rcases reachable_fileSynced h with ⟨hnone, _⟩ | hsync
  · rw [hnone] at hf
    exact absurd hf (by simp)
  · rw [hf] at hsync
    rw [Option.some.injEq] at hsync
    rw [hsync]
    rfl

theorem claim9_witness :
    [headerRow, sessionRow exA, sessionRow exB].head? = some headerRow :=
  claim9_backing_file_format.2.2.2 exState
    (Reachable.save exB (Reachable.save exA Reachable.init))
    [headerRow, sessionRow exA, sessionRow exB] rfl

/-- C10.  The header decision in append depends only on whether the file
exists at call time, never on its content: when the file exists — whatever
its records, even none at all — exactly one data record is appended and no
header is added; the header is written only when the file is absent. -/
theorem claim10_append_header_existence_only :
    (∀ (l : List StudySession) (rows : List Row) (s : StudySession),
      (save_session { session_list := l, file := some rows } s).file =
        some (rows ++ [sessionRow s])) ∧
    (∀ (l : List StudySession) (s : StudySession),
      (save_session { session_list := l, file := none } s).file =
        some (headerRow :: [sessionRow s])) :=
  ⟨fun _ _ _ => rfl, fun _ _ => rfl⟩
